import Mathlib

/-!
Verification of the AES trace engine in `EECE455/aes_implementation.py`.

The Python source is shallowly embedded below: bytes are `Nat` values
(masked where the source masks), the 4x4 state is a `List (List Nat)`,
hex strings are Lean `String`s, and fallible operations (hex decoding,
out-of-range indexing raised as exceptions in Python) return `Option`.
The Flask route `/encrypt` and its validation checks are embedded as
`AES.route_encrypt`.
-/

set_option maxRecDepth 10000

namespace AES

/-- The fixed AES S-box table, copied from `AES.sbox` in the source. -/
def sbox : List Nat := [
  0x63, 0x7c, 0x77, 0x7b, 0xf2, 0x6b, 0x6f, 0xc5, 0x30, 0x01, 0x67, 0x2b, 0xfe, 0xd7, 0xab, 0x76,
  0xca, 0x82, 0xc9, 0x7d, 0xfa, 0x59, 0x47, 0xf0, 0xad, 0xd4, 0xa2, 0xaf, 0x9c, 0xa4, 0x72, 0xc0,
  0xb7, 0xfd, 0x93, 0x26, 0x36, 0x3f, 0xf7, 0xcc, 0x34, 0xa5, 0xe5, 0xf1, 0x71, 0xd8, 0x31, 0x15,
  0x04, 0xc7, 0x23, 0xc3, 0x18, 0x96, 0x05, 0x9a, 0x07, 0x12, 0x80, 0xe2, 0xeb, 0x27, 0xb2, 0x75,
  0x09, 0x83, 0x2c, 0x1a, 0x1b, 0x6e, 0x5a, 0xa0, 0x52, 0x3b, 0xd6, 0xb3, 0x29, 0xe3, 0x2f, 0x84,
  0x53, 0xd1, 0x00, 0xed, 0x20, 0xfc, 0xb1, 0x5b, 0x6a, 0xcb, 0xbe, 0x39, 0x4a, 0x4c, 0x58, 0xcf,
  0xd0, 0xef, 0xaa, 0xfb, 0x43, 0x4d, 0x33, 0x85, 0x45, 0xf9, 0x02, 0x7f, 0x50, 0x3c, 0x9f, 0xa8,
  0x51, 0xa3, 0x40, 0x8f, 0x92, 0x9d, 0x38, 0xf5, 0xbc, 0xb6, 0xda, 0x21, 0x10, 0xff, 0xf3, 0xd2,
  0xcd, 0x0c, 0x13, 0xec, 0x5f, 0x97, 0x44, 0x17, 0xc4, 0xa7, 0x7e, 0x3d, 0x64, 0x5d, 0x19, 0x73,
  0x60, 0x81, 0x4f, 0xdc, 0x22, 0x2a, 0x90, 0x88, 0x46, 0xee, 0xb8, 0x14, 0xde, 0x5e, 0x0b, 0xdb,
  0xe0, 0x32, 0x3a, 0x0a, 0x49, 0x06, 0x24, 0x5c, 0xc2, 0xd3, 0xac, 0x62, 0x91, 0x95, 0xe4, 0x79,
  0xe7, 0xc8, 0x37, 0x6d, 0x8d, 0xd5, 0x4e, 0xa9, 0x6c, 0x56, 0xf4, 0xea, 0x65, 0x7a, 0xae, 0x08,
  0xba, 0x78, 0x25, 0x2e, 0x1c, 0xa6, 0xb4, 0xc6, 0xe8, 0xdd, 0x74, 0x1f, 0x4b, 0xbd, 0x8b, 0x8a,
  0x70, 0x3e, 0xb5, 0x66, 0x48, 0x03, 0xf6, 0x0e, 0x61, 0x35, 0x57, 0xb9, 0x86, 0xc1, 0x1d, 0x9e,
  0xe1, 0xf8, 0x98, 0x11, 0x69, 0xd9, 0x8e, 0x94, 0x9b, 0x1e, 0x87, 0xe9, 0xce, 0x55, 0x28, 0xdf,
  0x8c, 0xa1, 0x89, 0x0d, 0xbf, 0xe6, 0x42, 0x68, 0x41, 0x99, 0x2d, 0x0f, 0xb0, 0x54, 0xbb, 0x16]

/-- The round-constant table, copied from `AES.rcon` in the source. -/
def rcon : List Nat := [
  0x01, 0x02, 0x04, 0x08, 0x10, 0x20, 0x40, 0x80, 0x1b, 0x36, 0x6c, 0xd8, 0xab, 0x4d, 0x9a, 0x2f]

/-- Hex digit value of a character, as accepted by Python `bytes.fromhex`. -/
def hexVal (c : Char) : Option Nat :=
  if '0' ≤ c ∧ c ≤ '9' then some (c.toNat - 48)
  else if 'a' ≤ c ∧ c ≤ 'f' then some (c.toNat - 87)
  else if 'A' ≤ c ∧ c ≤ 'F' then some (c.toNat - 55)
  else none

/-- Whether a character is a hex digit. -/
def isHexDigitChar (c : Char) : Bool := (hexVal c).isSome

/-- Number of hex-digit characters in a character list. -/
def hexDigitCount (l : List Char) : Nat := (l.filter isHexDigitChar).length

/-- ASCII whitespace in the sense of CPython's `Py_ISSPACE`, which
`bytes.fromhex` skips between digit pairs. -/
def isPySpace (c : Char) : Bool :=
  c == ' ' || c == '\t' || c == '\n' || c == '\x0B' || c == '\x0C' || c == '\r'

/-- CPython `bytes.fromhex` (3.7+ semantics): ASCII whitespace may
separate two-digit pairs; each pair must be two adjacent hex digits;
anything else (including an odd trailing digit) raises `ValueError`,
modelled as `none`. -/
def pyFromhex : List Char → Option (List Nat)
  | [] => some []
  | c :: rest =>
    if isPySpace c then pyFromhex rest
    else
      match hexVal c with
      | none => none
      | some hi =>
        match rest with
        | [] => none
        | d :: rest2 =>
          match hexVal d with
          | none => none
          | some lo => (pyFromhex rest2).map (fun bs => (16 * hi + lo) :: bs)

/-- Remove every occurrence of one character (Python `str.replace(ch, '')`). -/
def removeChar (t : Char) (l : List Char) : List Char := l.filter (fun c => c ≠ t)

/-- Single left-to-right pass removing the two-character substring "0x"
(Python `str.replace('0x', '')`). -/
def remove0x : List Char → List Char
  | [] => []
  | '0' :: 'x' :: rest => remove0x rest
  | c :: rest => c :: remove0x rest

/-- The cleaning pass of `AES.hex_to_bytes`:
`hex_string.replace(' ', '').replace('0x', '').replace('\n', '')`. -/
def pyClean (s : String) : List Char := removeChar '\n' (remove0x (removeChar ' ' s.data))

/-- `AES.hex_to_bytes`: clean the string, then `bytes.fromhex`. -/
def hex_to_bytes (s : String) : Option (List Nat) := pyFromhex (pyClean s)

/-- Uppercase hex digit for a nibble. -/
def hexDigitU (n : Nat) : Char := "0123456789ABCDEF".data.getD n '0'

/-- `AES.bytes_to_hex`: `data.hex().upper()` — two uppercase hex digits
per byte, concatenated. -/
def bytes_to_hex (data : List Nat) : String :=
  String.mk (data.foldr (fun b acc => hexDigitU (b / 16) :: hexDigitU (b % 16) :: acc) [])

/-- The 4x4 state matrix, row list of column lists of byte values. -/
abbrev StateMat := List (List Nat)

/-- A 4-byte key-schedule word. -/
abbrev Word := List Nat

/-- `state[i][j]` (Python list indexing; defaults only used where the
source could not raise `IndexError`). -/
def entry (st : StateMat) (i j : Nat) : Nat := (st.getD i []).getD j 0

/-- `AES.bytes_to_matrix`: `matrix[i][j] = data[4*j + i]` (column-major).
Python raises `IndexError` when fewer than 16 bytes are supplied
(index 15 = `data[4*3+3]` is always read), modelled as `none`. -/
def bytes_to_matrix (data : List Nat) : Option StateMat :=
  if 16 ≤ data.length then
    some ((List.range 4).map (fun i => (List.range 4).map (fun j => data.getD (4 * j + i) 0)))
  else none

/-- `AES.matrix_to_bytes`: writes `data[4*j + i] = matrix[i][j]` into a
16-byte buffer; equivalently output position `k` holds
`matrix[k % 4][k / 4]`. -/
def matrix_to_bytes (m : StateMat) : List Nat :=
  (List.range 16).map (fun k => entry m (k % 4) (k / 4))

/-- `AES.matrix_to_hex`: render every cell as two uppercase hex digits. -/
def matrix_to_hex (m : StateMat) : List (List String) :=
  m.map (fun row => row.map (fun b => String.mk [hexDigitU (b / 16), hexDigitU (b % 16)]))

/-- One iteration of the `AES.galois_mult` loop on `(fuel, a, b, p)`:
conditionally accumulate, then shift `a` left folding overflow with
`0x1b`, then shift `b` right. -/
def gmLoop : Nat → Nat → Nat → Nat → Nat
  | 0, _, _, p => p
  | n + 1, a, b, p =>
    let p2 := if b % 2 = 1 then p ^^^ a else p
    let hi := a &&& 0x80
    let a2 := a <<< 1
    let a3 := if hi ≠ 0 then a2 ^^^ 0x1b else a2
    gmLoop n a3 (b >>> 1) p2

/-- `AES.galois_mult`: 8-iteration Russian-peasant multiplication in
GF(2^8), result masked to 8 bits. -/
def galois_mult (a b : Nat) : Nat := gmLoop 8 a b 0 &&& 0xff

/-- `RotWord` step from `AES.key_expansion`. -/
def rotWord (w : Word) : Word := [w.getD 1 0, w.getD 2 0, w.getD 3 0, w.getD 0 0]

/-- `SubWord` step from `AES.key_expansion`. -/
def subWord (w : Word) : Word := w.map (fun b => sbox.getD b 0)

/-- Byte-wise XOR of two 4-byte words. -/
def xorWord (a b : Word) : Word := (List.range 4).map (fun j => a.getD j 0 ^^^ b.getD j 0)

/-- The word appended at index `i` by `AES.key_expansion`'s main loop,
reading the already-built schedule `w`: `temp = w[i-1]`, rotated,
substituted and Rcon-xored when `i % nk == 0`, substituted alone when
`nk > 6` and `i % nk == 4`, then `w[i-nk] XOR temp`. -/
def nextWord (nk : Nat) (w : List Word) (i : Nat) : Word :=
  let t0 := w.getD (i - 1) []
  let temp :=
    if i % nk = 0 then
      let t := subWord (rotWord t0)
      [t.getD 0 0 ^^^ rcon.getD (i / nk - 1) 0, t.getD 1 0, t.getD 2 0, t.getD 3 0]
    else if 6 < nk ∧ i % nk = 4 then subWord t0
    else t0
  xorWord (w.getD (i - nk) []) temp

/-- The expansion loop of `AES.key_expansion`: append `fuel` further
words, each computed by `nextWord` from the schedule built so far. -/
def expandAux (nk : Nat) : Nat → List Word → List Word
  | 0, w => w
  | n + 1, w => expandAux nk n (w ++ [nextWord nk w w.length])

/-- The first `nk` words of the schedule, four key bytes apiece; Python
raises `IndexError` when fewer than `4*nk` key bytes are supplied. -/
def initWords (nk : Nat) (kb : List Nat) : Option (List Word) :=
  if 4 * nk ≤ kb.length then
    some ((List.range nk).map
      (fun i => [kb.getD (4 * i) 0, kb.getD (4 * i + 1) 0, kb.getD (4 * i + 2) 0, kb.getD (4 * i + 3) 0]))
  else none

/-- Whether every `rcon[i / nk - 1]` access of the expansion loop is in
range (16 entries); out-of-range raises `IndexError` in Python. -/
def rconOK (nk nr : Nat) : Bool :=
  (List.range (4 * (nr + 1))).all
    (fun i => decide (i < nk) || !(i % nk == 0) || decide (i / nk - 1 < 16))

/-- `AES.key_expansion` on already-decoded key bytes. `nk = 0` is
modelled as `none` (Python raises `ZeroDivisionError` on `i % 0`). -/
def key_expansion (nk nr : Nat) (kb : List Nat) : Option (List Word) :=
  if nk = 0 then none
  else if rconOK nk nr then
    (initWords nk kb).map (fun w0 => expandAux nk (4 * (nr + 1) - nk) w0)
  else none

/-- `AES.add_round_key`: byte-wise XOR of state and round-key matrix. -/
def add_round_key (st rk : StateMat) : StateMat :=
  (List.range 4).map (fun i => (List.range 4).map (fun j => entry st i j ^^^ entry rk i j))

/-- `AES.sub_bytes`: replace every state byte through the S-box. -/
def sub_bytes (st : StateMat) : StateMat :=
  (List.range 4).map (fun i => (List.range 4).map (fun j => sbox.getD (entry st i j) 0))

/-- `AES.shift_rows`: row `r` cyclically rotated left by `r`. -/
def shift_rows (st : StateMat) : StateMat :=
  [st.getD 0 [],
   [entry st 1 1, entry st 1 2, entry st 1 3, entry st 1 0],
   [entry st 2 2, entry st 2 3, entry st 2 0, entry st 2 1],
   [entry st 3 3, entry st 3 0, entry st 3 1, entry st 3 2]]

/-- `AES.mix_columns`: per column `i`, the four GF(2^8) MDS combinations
written in the source (lines 150-153). -/
def mix_columns (st : StateMat) : StateMat :=
  [(List.range 4).map (fun i =>
     galois_mult 2 (entry st 0 i) ^^^ galois_mult 3 (entry st 1 i) ^^^ entry st 2 i ^^^ entry st 3 i),
   (List.range 4).map (fun i =>
     entry st 0 i ^^^ galois_mult 2 (entry st 1 i) ^^^ galois_mult 3 (entry st 2 i) ^^^ entry st 3 i),
   (List.range 4).map (fun i =>
     entry st 0 i ^^^ entry st 1 i ^^^ galois_mult 2 (entry st 2 i) ^^^ galois_mult 3 (entry st 3 i)),
   (List.range 4).map (fun i =>
     galois_mult 3 (entry st 0 i) ^^^ entry st 1 i ^^^ entry st 2 i ^^^ galois_mult 2 (entry st 3 i))]

/-- Column `c` of a state matrix. -/
def getCol (st : StateMat) (c : Nat) : List Nat := (List.range 4).map (fun r => entry st r c)

/-- The per-round transpose in `AES.encrypt`:
`round_key_matrix[i][j] = round_keys[r][j][i]`. -/
def rkTranspose (rk : List Word) : StateMat :=
  (List.range 4).map (fun i => (List.range 4).map (fun j => (rk.getD j []).getD i 0))

/-- One entry of the `rounds` list of the result dictionary. -/
structure StepRecord where
  round : Nat
  operation : String
  state : List (List String)
deriving DecidableEq, Repr

/-- One entry of the `expanded_key` list of the result dictionary. -/
structure RoundKeyRecord where
  round : Nat
  key : List (List String)
deriving DecidableEq, Repr

/-- The dictionary returned by `AES.encrypt`. -/
structure EncryptionTrace where
  initial_state : List (List String)
  rounds : List StepRecord
  expanded_key : List RoundKeyRecord
  final_ciphertext : String
deriving DecidableEq, Repr

/-- One main-round iteration of the loop in `AES.encrypt` (rounds
`1..nr-1`): SubBytes, ShiftRows, MixColumns, AddRoundKey, each appending
a step record. -/
def mainRound (round_keys : List (List Word)) (acc : StateMat × List StepRecord)
    (round_num : Nat) : StateMat × List StepRecord :=
  let s1 := sub_bytes acc.1
  let s2 := shift_rows s1
  let s3 := mix_columns s2
  let s4 := add_round_key s3 (rkTranspose (round_keys.getD round_num []))
  (s4, acc.2 ++
    [{ round := round_num, operation := "SubBytes", state := matrix_to_hex s1 },
     { round := round_num, operation := "ShiftRows", state := matrix_to_hex s2 },
     { round := round_num, operation := "MixColumns", state := matrix_to_hex s3 },
     { round := round_num, operation := "AddRoundKey", state := matrix_to_hex s4 }])

/-- `AES.encrypt` for an `AES(key_size)` instance: decode both hex
inputs, build the state and the expanded key, run the initial
AddRoundKey, the main rounds and the final round (no MixColumns),
recording every sub-step; `none` models any Python exception raised on
malformed input. The source decodes the key twice (once directly, once
inside `key_expansion`) with identical results; here it is decoded once. -/
def encrypt (key_size : Nat) (plaintext keyHex : String) : Option EncryptionTrace :=
  match hex_to_bytes plaintext, hex_to_bytes keyHex with
  | some pt_bytes, some key_bytes =>
    let nk := key_size / 32
    let nr := nk + 6
    match bytes_to_matrix pt_bytes, key_expansion nk nr key_bytes with
    | some state0, some expanded_key =>
      let round_keys := (List.range (nr + 1)).map
        (fun i => (List.range 4).map (fun j => expanded_key.getD (4 * i + j) []))
      let st1 := add_round_key state0 (rkTranspose (round_keys.getD 0 []))
      let initRec : StepRecord :=
        { round := 0, operation := "Initial AddRoundKey", state := matrix_to_hex st1 }
      let main := (List.range' 1 (nr - 1)).foldl (mainRound round_keys) (st1, [initRec])
      let f1 := sub_bytes main.1
      let f2 := shift_rows f1
      let f3 := add_round_key f2 (rkTranspose (round_keys.getD nr []))
      some {
        initial_state := matrix_to_hex state0,
        rounds := main.2 ++
          [{ round := nr, operation := "SubBytes", state := matrix_to_hex f1 },
           { round := nr, operation := "ShiftRows", state := matrix_to_hex f2 },
           { round := nr, operation := "Final AddRoundKey", state := matrix_to_hex f3 }],
        expanded_key := (List.range (nr + 1)).map
          (fun i => { round := i, key := matrix_to_hex (round_keys.getD i []) }),
        final_ciphertext := bytes_to_hex (matrix_to_bytes f3) }
    | _, _ => none
  | _, _ => none

/-- The character count used by the Flask route's validation:
`len(x.replace(' ', '').replace('0x', ''))` (newlines are NOT removed
here, unlike in `hex_to_bytes`). -/
def routeCleanLen (s : String) : Nat := (remove0x (removeChar ' ' s.data)).length

/-- Outcome of the Flask `/encrypt` route: a trace, one of the two
400-level length rejections, or the generic 500 exception handler. -/
inductive RouteResult where
  | ok (t : EncryptionTrace)
  | badMessageLen
  | badKeyLen
  | exn
deriving DecidableEq, Repr

/-- Whether the route returned a trace. -/
def RouteResult.isOk : RouteResult → Bool
  | .ok _ => true
  | _ => false

/-- Number of step records of a successful route result (0 otherwise). -/
def roundsLenOf : RouteResult → Nat
  | .ok t => t.rounds.length
  | _ => 0

/-- Number of `expanded_key` entries of a successful route result. -/
def ekLenOf : RouteResult → Nat
  | .ok t => t.expanded_key.length
  | _ => 0

/-- Step count, round-key count and success flag of a route result. -/
def routeStats (r : RouteResult) : Nat × Nat × Bool := (roundsLenOf r, ekLenOf r, r.isOk)

/-- The Flask `/encrypt` route: message must count 32 cleaned
characters, the key `key_size // 4`; then `AES(key_size).encrypt` runs
with any exception mapped to the 500 handler. -/
def route_encrypt (message key : String) (key_size : Nat) : RouteResult :=
  if routeCleanLen message ≠ 32 then .badMessageLen
  else if routeCleanLen key ≠ key_size / 4 then .badKeyLen
  else
    match encrypt key_size message key with
    | some t => .ok t
    | none => .exn

/-- `final_ciphertext` of an encryption result (empty on failure). -/
def finalHex : Option EncryptionTrace → String
  | some t => t.final_ciphertext
  | none => ""

/-- The `(round, operation)` projection of a step record. -/
def projOp (s : StepRecord) : Nat × String := (s.round, s.operation)

/-- The ordered `(round, operation)` sequence of a trace's step records. -/
def opsOf (t : EncryptionTrace) : List (Nat × String) := t.rounds.map projOp

/-- The `(round, operation)` pairs emitted by the main rounds, four per
round in the fixed order SubBytes, ShiftRows, MixColumns, AddRoundKey. -/
def mainOps : List Nat → List (Nat × String)
  | [] => []
  | r :: rs =>
    (r, "SubBytes") :: (r, "ShiftRows") :: (r, "MixColumns") :: (r, "AddRoundKey") :: mainOps rs

/-! ### Galois-field lemmas -/

/-- The accumulator threads through the multiplication loop by XOR. -/
lemma gmLoop_acc : ∀ (n a b p : Nat), gmLoop n a b p = p ^^^ gmLoop n a b 0 := by
  intro n
  induction n with
  | zero => intro a b p; simp [gmLoop]
  | succ m ih =>
    intro a b p
    simp only [gmLoop]
    rw [ih _ _ (if b % 2 = 1 then p ^^^ a else p), ih _ _ (if b % 2 = 1 then 0 ^^^ a else 0)]
    by_cases hb : b % 2 = 1 <;>
      simp [hb, Nat.xor_assoc]

/-- A zero multiplier contributes nothing. -/
lemma gmLoop_b0 : ∀ (n a p : Nat), gmLoop n a 0 p = p := by
  intro n
  induction n with
  | zero => intro a p; simp [gmLoop]
  | succ m ih => intro a p; simp [gmLoop, ih]

/-- A zero multiplicand contributes nothing. -/
lemma gmLoop_a0 : ∀ (n b p : Nat), gmLoop n 0 b p = p := by
  intro n
  induction n with
  | zero => intro b p; simp [gmLoop]
  | succ m ih => intro b p; simp [gmLoop, ih]

lemma xor_lcomm (a b c : Nat) : a ^^^ (b ^^^ c) = b ^^^ (a ^^^ c) := by
  rw [← Nat.xor_assoc, Nat.xor_comm a b, Nat.xor_assoc]

lemma xor_cancel (a w : Nat) : a ^^^ (a ^^^ w) = w := by
  rw [← Nat.xor_assoc, Nat.xor_self, Nat.zero_xor]

lemma xor_mod_two (y z : Nat) : (y ^^^ z) % 2 = (y % 2) ^^^ (z % 2) := by
  rw [← Nat.and_one_is_mod, ← Nat.and_one_is_mod, ← Nat.and_one_is_mod,
    Nat.and_xor_distrib_right]

lemma xor_shiftRight (y z : Nat) : (y ^^^ z) >>> 1 = (y >>> 1) ^^^ (z >>> 1) := by
  apply Nat.eq_of_testBit_eq
  intro i
  simp [Nat.testBit_xor]

lemma xor_shiftLeft (y z : Nat) : (y ^^^ z) <<< 1 = (y <<< 1) ^^^ (z <<< 1) := by
  apply Nat.eq_of_testBit_eq
  intro i
  by_cases hi : 1 ≤ i <;> simp [Nat.testBit_xor, Nat.testBit_shiftLeft, hi]

/-- `z &&& 0x80` is either 0 or 0x80. -/
lemma and128_dichotomy (z : Nat) : z &&& 128 = (if z.testBit 7 then 128 else 0) := by
  have h128 : (128 : Nat) = 2 ^ 7 := by norm_num
  rw [h128]
  apply Nat.eq_of_testBit_eq
  intro j
  by_cases hj : j = 7
  · subst hj
    by_cases hz : z.testBit 7 <;> simp [hz, Nat.testBit_two_pow_self]
  · by_cases hz : z.testBit 7 <;>
      simp [hz, Nat.testBit_two_pow_of_ne (fun h => hj h.symm), Nat.testBit_and]

/-- The `a`-update of the loop (shift and conditional 0x1b fold)
distributes over XOR. -/
lemma xtStep_linear (x y : Nat) :
    (if (x ^^^ y) &&& 128 ≠ 0 then ((x ^^^ y) <<< 1) ^^^ 27 else (x ^^^ y) <<< 1)
    = (if x &&& 128 ≠ 0 then (x <<< 1) ^^^ 27 else x <<< 1)
      ^^^ (if y &&& 128 ≠ 0 then (y <<< 1) ^^^ 27 else y <<< 1) := by
  rw [Nat.and_xor_distrib_right, and128_dichotomy x, and128_dichotomy y, xor_shiftLeft]
  by_cases hx : x.testBit 7 <;> by_cases hy : y.testBit 7 <;>
    simp [hx, hy, Nat.xor_assoc, Nat.xor_comm, xor_lcomm, xor_cancel, Nat.xor_self, Nat.xor_zero, Nat.zero_xor, Nat.add_mod]

/-- `gmLoop` is XOR-linear in the multiplier `b`. -/
lemma gmLoop_linear_b : ∀ (n a y z : Nat),
    gmLoop n a (y ^^^ z) 0 = gmLoop n a y 0 ^^^ gmLoop n a z 0 := by
  intro n
  induction n with
  | zero => intro a y z; simp [gmLoop]
  | succ m ih =>
    intro a y z
    simp only [gmLoop]
    rw [gmLoop_acc m _ _ (if (y ^^^ z) % 2 = 1 then 0 ^^^ a else 0),
      gmLoop_acc m _ _ (if y % 2 = 1 then 0 ^^^ a else 0),
      gmLoop_acc m _ _ (if z % 2 = 1 then 0 ^^^ a else 0),
      xor_shiftRight, ih]
    rcases Nat.mod_two_eq_zero_or_one y with hy | hy <;>
      rcases Nat.mod_two_eq_zero_or_one z with hz | hz <;>
        simp [xor_mod_two, hy, hz, Nat.xor_assoc, Nat.xor_comm, xor_lcomm, xor_cancel, Nat.xor_self, Nat.xor_zero, Nat.zero_xor, Nat.add_mod]

/-- `gmLoop` is XOR-linear in the multiplicand `a`. -/
lemma gmLoop_linear_a : ∀ (n b x y : Nat),
    gmLoop n (x ^^^ y) b 0 = gmLoop n x b 0 ^^^ gmLoop n y b 0 := by
  intro n
  induction n with
  | zero => intro b x y; simp [gmLoop]
  | succ m ih =>
    intro b x y
    simp only [gmLoop]
    rw [gmLoop_acc m _ _ (if b % 2 = 1 then 0 ^^^ (x ^^^ y) else 0),
      gmLoop_acc m _ _ (if b % 2 = 1 then 0 ^^^ x else 0),
      gmLoop_acc m _ _ (if b % 2 = 1 then 0 ^^^ y else 0),
      xtStep_linear, ih]
    by_cases hb : b % 2 = 1 <;>
      simp [hb, Nat.xor_assoc, Nat.xor_comm, xor_lcomm, xor_cancel, Nat.xor_self, Nat.xor_zero, Nat.zero_xor, Nat.add_mod]

/-- `galois_mult` is XOR-linear in its first argument. -/
lemma galois_mult_linear_a (x y b : Nat) :
    galois_mult (x ^^^ y) b = galois_mult x b ^^^ galois_mult y b := by
  unfold galois_mult
  rw [gmLoop_linear_a, Nat.and_xor_distrib_right]

/-- `galois_mult` is XOR-linear in its second argument. -/
lemma galois_mult_linear_b (a y z : Nat) :
    galois_mult a (y ^^^ z) = galois_mult a y ^^^ galois_mult a z := by
  unfold galois_mult
  rw [gmLoop_linear_b, Nat.and_xor_distrib_right]

lemma galois_mult_zero_left (b : Nat) : galois_mult 0 b = 0 := by
  unfold galois_mult
  rw [gmLoop_a0]
  simp

lemma galois_mult_zero_right (a : Nat) : galois_mult a 0 = 0 := by
  unfold galois_mult
  rw [gmLoop_b0]
  simp

/-- Commutativity on basis pairs: a power of two with any byte. -/
lemma galois_mult_basis : ∀ i, i < 8 → ∀ y, y < 256 →
    galois_mult (2 ^ i) y = galois_mult y (2 ^ i) := by decide

/-- Every byte is the XOR of its set bits. -/
lemma byte_bit_expand : ∀ x, x < 256 →
    x = ((List.range 8).map (fun i => if x.testBit i then 2 ^ i else 0)).foldr
      (fun a b => a ^^^ b) 0 := by decide

/-- A fold of XORs commutes with a fixed `y` when every part does. -/
lemma galois_mult_comm_fold (y : Nat) : ∀ l : List Nat,
    (∀ e ∈ l, galois_mult e y = galois_mult y e) →
    galois_mult (l.foldr (fun a b => a ^^^ b) 0) y
      = galois_mult y (l.foldr (fun a b => a ^^^ b) 0) := by
  intro l
  induction l with
  | nil =>
    intro _
    simp [List.foldr, galois_mult_zero_left, galois_mult_zero_right]
  | cons e rest ih =>
    intro h
    simp only [List.foldr]
    rw [galois_mult_linear_a, galois_mult_linear_b, h e (by simp),
      ih (fun x hx => h x (by simp [hx]))]

/-- `galois_mult` is commutative on bytes. -/
lemma galois_mult_comm (x y : Nat) (hx : x < 256) (hy : y < 256) :
    galois_mult x y = galois_mult y x := by
  have hparts : ∀ e ∈ (List.range 8).map (fun i => if x.testBit i then 2 ^ i else 0),
      galois_mult e y = galois_mult y e := by
    intro e he
    simp only [List.mem_map, List.mem_range] at he
    obtain ⟨i, hi8, rfl⟩ := he
    by_cases hb : x.testBit i
    · simpa [hb] using galois_mult_basis i hi8 y hy
    · simp [hb, galois_mult_zero_left, galois_mult_zero_right]
  calc galois_mult x y
      = galois_mult (((List.range 8).map (fun i => if x.testBit i then 2 ^ i else 0)).foldr
          (fun a b => a ^^^ b) 0) y := by rw [← byte_bit_expand x hx]
    _ = galois_mult y (((List.range 8).map (fun i => if x.testBit i then 2 ^ i else 0)).foldr
          (fun a b => a ^^^ b) 0) := galois_mult_comm_fold y _ hparts
    _ = galois_mult y x := by rw [← byte_bit_expand x hx]

/-- `galois_mult x 1 = x` on bytes. -/
lemma galois_mult_one : ∀ x, x < 256 → galois_mult x 1 = x := by decide

/-- The result of `galois_mult` is always below 256 (final 0xff mask). -/
lemma galois_mult_lt (a b : Nat) : galois_mult a b < 256 :=
  Nat.lt_succ_of_le (Nat.and_le_right)

/-! ### Codec lemmas -/

lemma getD_map_range {α : Type} (f : Nat → α) (n i : Nat) (h : i < n) (d : α) :
    ((List.range n).map f).getD i d = f i := by
  rw [List.getD_eq_getElem?_getD, List.getElem?_map, List.getElem?_range h]
  rfl

lemma getD_eq_getElem_of_lt {α : Type} (l : List α) (i : Nat) (h : i < l.length) (d : α) :
    l.getD i d = l[i] := by
  rw [List.getD_eq_getElem?_getD, List.getElem?_eq_getElem h]
  rfl

/-! ### Key-expansion lemmas -/

/-- `nextWord` only reads schedule positions `i-1` and `i-nk`. -/
lemma nextWord_congr (nk : Nat) (w1 w2 : List Word) (i : Nat)
    (h1 : w1.getD (i - 1) [] = w2.getD (i - 1) [])
    (h2 : w1.getD (i - nk) [] = w2.getD (i - nk) []) :
    nextWord nk w1 i = nextWord nk w2 i := by
  unfold nextWord
  rw [h1, h2]

lemma getD_append_length {α : Type} (l : List α) (x d : α) :
    (l ++ [x]).getD l.length d = x := by
  rw [List.getD_eq_getElem?_getD, List.getElem?_concat_length]
  rfl

lemma getD_append_left {α : Type} (l l2 : List α) (i : Nat) (h : i < l.length) (d : α) :
    (l ++ l2).getD i d = l.getD i d := by
  rw [List.getD_eq_getElem?_getD, List.getElem?_append_left h, ← List.getD_eq_getElem?_getD]

lemma expandAux_length (nk : Nat) : ∀ (n : Nat) (w : List Word),
    (expandAux nk n w).length = w.length + n := by
  intro n
  induction n with
  | zero => intro w; rfl
  | succ m ih =>
    intro w
    show (expandAux nk m (w ++ [nextWord nk w w.length])).length = w.length + (m + 1)
    rw [ih]
    simp only [List.length_append, List.length_cons, List.length_nil]
    omega

/-- Words already in the schedule are unchanged by further expansion. -/
lemma expandAux_stable (nk : Nat) : ∀ (n : Nat) (w : List Word) (i : Nat), i < w.length →
    (expandAux nk n w).getD i [] = w.getD i [] := by
  intro n
  induction n with
  | zero => intro w i hi; rfl
  | succ m ih =>
    intro w i hi
    show (expandAux nk m (w ++ [nextWord nk w w.length])).getD i [] = w.getD i []
    rw [ih _ i (by simp; omega)]
    exact getD_append_left w _ i hi []

/-- Every expanded position satisfies the `nextWord` recurrence read
from the final schedule. -/
lemma expandAux_spec (nk : Nat) (hnk : 1 ≤ nk) : ∀ (n : Nat) (w : List Word),
    1 ≤ w.length → ∀ i, w.length ≤ i → i < w.length + n →
    (expandAux nk n w).getD i [] = nextWord nk (expandAux nk n w) i := by
  intro n
  induction n with
  | zero => intro w hw i hge hlt; omega
  | succ m ih =>
    intro w hw i hge hlt
    show (expandAux nk m (w ++ [nextWord nk w w.length])).getD i []
      = nextWord nk (expandAux nk m (w ++ [nextWord nk w w.length])) i
    by_cases heq : i = w.length
    · subst heq
      rw [expandAux_stable nk m _ _ (by simp), getD_append_length]
      symm
      apply nextWord_congr
      · rw [expandAux_stable nk m _ _ (by simp; omega)]
        exact getD_append_left w _ _ (by omega) []
      · rw [expandAux_stable nk m _ _ (by simp; omega)]
        exact getD_append_left w _ _ (by omega) []
    · exact ih (w ++ [nextWord nk w w.length])
        (by simp only [List.length_append, List.length_cons, List.length_nil]; omega) i
        (by simp only [List.length_append, List.length_cons, List.length_nil]; omega)
        (by simp only [List.length_append, List.length_cons, List.length_nil]; omega)

lemma nextWord_length (nk : Nat) (w : List Word) (i : Nat) :
    (nextWord nk w i).length = 4 := by
  simp [nextWord, xorWord]

lemma expandAux_words (nk : Nat) : ∀ (n : Nat) (w : List Word),
    (∀ wd ∈ w, wd.length = 4) → ∀ wd ∈ expandAux nk n w, wd.length = 4 := by
  intro n
  induction n with
  | zero => intro w h; exact h
  | succ m ih =>
    intro w h wd hwd
    refine ih _ ?_ wd hwd
    intro x hx
    rcases List.mem_append.mp hx with hx | hx
    · exact h x hx
    · simp at hx
      subst hx
      exact nextWord_length nk w w.length

/-! ### Claim theorems -/

/-- Claim C1: for the FIPS-197 test vector (plaintext
`00112233445566778899aabbccddeeff`, key
`000102030405060708090a0b0c0d0e0f`, key size 128), `encrypt` returns a
trace whose `final_ciphertext` is the 32-character uppercase hex string
`69C4E0D86A7B0430D8CDB78070B4C55A`. -/
theorem claim1_fips_ciphertext :
    finalHex (encrypt 128 "00112233445566778899aabbccddeeff"
      "000102030405060708090a0b0c0d0e0f") = "69C4E0D86A7B0430D8CDB78070B4C55A" := by
  decide

/-- Claim C8: on byte values, `galois_mult` has 1 as right identity,
0 as right annihilator, is commutative, distributes over XOR, and
always returns an 8-bit value. -/
theorem claim8_galois_identities (x y z : Nat) (hx : x < 256) (hy : y < 256)
    (hz : z < 256) :
    galois_mult x 1 = x ∧ galois_mult x 0 = 0 ∧
    galois_mult x y = galois_mult y x ∧
    galois_mult x (y ^^^ z) = galois_mult x y ^^^ galois_mult x z ∧
    galois_mult x y < 256 :=
  ⟨galois_mult_one x hx, galois_mult_zero_right x, galois_mult_comm x y hx hy,
   galois_mult_linear_b x y z, galois_mult_lt x y⟩

/-- Witness for C8 at `x = 2`, `y = 3`, `z = 5`. -/
theorem claim8_witness :
    galois_mult 2 1 = 2 ∧ galois_mult 2 0 = 0 ∧
    galois_mult 2 3 = galois_mult 3 2 ∧
    galois_mult 2 (3 ^^^ 5) = galois_mult 2 3 ^^^ galois_mult 2 5 ∧
    galois_mult 2 3 < 256 :=
  claim8_galois_identities 2 3 5 (by decide) (by decide) (by decide)

/-- Counterexample to claim C4: key size 96 is outside {128,192,256},
yet the route returns a successful trace instead of an invalid-key-size
failure (no such validation exists in the source). -/
theorem claim4_counterexample :
    (route_encrypt "00112233445566778899aabbccddeeff"
      "000000000000000000000000" 96).isOk = true := by
  decide

/-- Amended claim C4: no keySize validation is performed; a call with
keySize 96 and a matching 12-byte key proceeds with the derived Nk = 3,
Nr = 9 and returns a complete trace of 36 step records and 10 round
keys. -/
theorem claim4_amended_no_keysize_validation :
    routeStats (route_encrypt "00112233445566778899aabbccddeeff"
      "000000000000000000000000" 96) = (36, 10, true) := by
  decide

/-- Counterexample to claim C5: this plaintext decodes to 15 bytes (not
16), yet the route does not report a length error — the newlines pad the
validation character count to 32, so the request dies in the generic
exception handler instead. -/
theorem claim5_counterexample :
    routeCleanLen "000000000000000000000000000000\n\n" = 32 ∧
    (hex_to_bytes "000000000000000000000000000000\n\n").map List.length = some 15 ∧
    route_encrypt "000000000000000000000000000000\n\n"
      "00000000000000000000000000000000" 128 = RouteResult.exn := by
  decide

/-- Amended claim C5: the route reports a message-length error whenever
the cleaned character count of the plaintext differs from 32, and a
key-length error whenever the plaintext count is 32 but the cleaned key
count differs from keySize/4 (covering the claimed 15-byte-plaintext and
10-byte-key cases); counts are characters after removing spaces and
`0x`, so inputs whose count matches but which decode to fewer bytes slip
past and fail later with a generic error instead. -/
theorem claim5_amended_length_validation (m k : String) (ks : Nat) :
    (routeCleanLen m ≠ 32 → route_encrypt m k ks = RouteResult.badMessageLen) ∧
    (routeCleanLen m = 32 → routeCleanLen k ≠ ks / 4 →
      route_encrypt m k ks = RouteResult.badKeyLen) := by
  constructor
  · intro h
    unfold route_encrypt
    rw [if_pos h]
  · intro h1 h2
    unfold route_encrypt
    rw [if_neg (by simp [h1]), if_pos h2]

/-- Witness for C5 (amended): the 15-byte plaintext and the 10-byte key
from the claim are rejected with the corresponding length errors. -/
theorem claim5_witness :
    route_encrypt "000000000000000000000000000000"
      "00000000000000000000000000000000" 128 = RouteResult.badMessageLen ∧
    route_encrypt "00000000000000000000000000000000"
      "00000000000000000000" 128 = RouteResult.badKeyLen :=
  ⟨(claim5_amended_length_validation _ _ _).1 (by decide),
   (claim5_amended_length_validation _ _ _).2 (by decide) (by decide)⟩

/-- Counterexample to claim C10: a tab survives the cleaning pass, yet
decoding succeeds (Python `bytes.fromhex` skips ASCII whitespace between
digit pairs), contradicting the claim that a tab makes decoding fail. -/
theorem claim10_counterexample :
    ('\t' ∈ pyClean "AB\tCD") ∧ hex_to_bytes "AB\tCD" = some [171, 205] := by
  decide

/-- Amended claim C10: `hex_to_bytes` deletes every space, newline and
`0x` substring anywhere in the input (interior `0x` included); a tab is
not deleted by the cleaning pass, but decoding still succeeds when the
tab lies between hex digit pairs and fails when it splits a pair. -/
theorem claim10_amended_cleaning :
    hex_to_bytes "AB0xCD" = some [171, 205] ∧
    hex_to_bytes "A B0x\nCD" = some [171, 205] ∧
    pyClean "AB\tCD" = "AB\tCD".data ∧
    hex_to_bytes "AB\tCD" = some [171, 205] ∧
    hex_to_bytes "A\tB" = none := by
  decide

/-- Claim C7: `bytes_to_matrix` and `matrix_to_bytes` are mutually
inverse under column-major placement — every 16-byte sequence round
trips, and every 4x4 byte matrix round trips. -/
theorem claim7_roundtrip :
    (∀ b : List Nat, b.length = 16 →
      ∃ m, bytes_to_matrix b = some m ∧ matrix_to_bytes m = b) ∧
    (∀ s : StateMat, s.length = 4 → (∀ row ∈ s, row.length = 4) →
      (∀ row ∈ s, ∀ v ∈ row, v < 256) →
      bytes_to_matrix (matrix_to_bytes s) = some s) := by
  constructor
  · intro b hb
    refine ⟨(List.range 4).map (fun i => (List.range 4).map (fun j => b.getD (4 * j + i) 0)),
      ?_, ?_⟩
    · unfold bytes_to_matrix
      rw [if_pos (by omega)]
    · unfold matrix_to_bytes
      apply List.ext_getElem
      · simp [hb]
      · intro k h1 h2
        simp only [List.getElem_map, List.getElem_range]
        unfold entry
        have hk : k < 16 := by simpa using h1
        rw [getD_map_range _ 4 (k % 4) (by omega) [],
          getD_map_range _ 4 (k / 4) (by omega) 0]
        have : 4 * (k / 4) + k % 4 = k := by omega
        rw [this, getD_eq_getElem_of_lt b k (by omega) 0]
  · intro s h4 hrow hbyte
    have hlen : (matrix_to_bytes s).length = 16 := by simp [matrix_to_bytes]
    unfold bytes_to_matrix
    rw [if_pos (by omega)]
    refine congrArg some ?_
    apply List.ext_getElem
    · simp [h4]
    · intro i hi1 hi2
      have hi : i < 4 := by simpa using hi1
      simp only [List.getElem_map, List.getElem_range]
      apply List.ext_getElem
      · have := hrow s[i] (List.getElem_mem hi2)
        simp [this]
      · intro j hj1 hj2
        have hj : j < 4 := by simpa using hj1
        simp only [List.getElem_map, List.getElem_range]
        unfold matrix_to_bytes
        rw [getD_map_range _ 16 (4 * j + i) (by omega) 0]
        have hm : (4 * j + i) % 4 = i := by omega
        have hd : (4 * j + i) / 4 = j := by omega
        unfold entry
        rw [hm, hd, getD_eq_getElem_of_lt s i (by omega) [],
          getD_eq_getElem_of_lt s[i] j (by omega) 0]

/-- Witness for C7: a concrete 16-byte list and a concrete 4x4 byte
matrix both round trip. -/
theorem claim7_witness :
    (∃ m, bytes_to_matrix (List.replicate 16 (0 : Nat)) = some m ∧
      matrix_to_bytes m = List.replicate 16 0) ∧
    bytes_to_matrix (matrix_to_bytes
        [[0, 1, 2, 3], [4, 5, 6, 7], [8, 9, 10, 11], [12, 13, 14, 15]])
      = some [[0, 1, 2, 3], [4, 5, 6, 7], [8, 9, 10, 11], [12, 13, 14, 15]] :=
  ⟨claim7_roundtrip.1 _ (by decide),
   claim7_roundtrip.2 _ (by decide) (by decide) (by decide)⟩

/-- Claim C6: `mix_columns` replaces each column `[s0,s1,s2,s3]`
independently with
`[2·s0 ^ 3·s1 ^ s2 ^ s3, s0 ^ 2·s1 ^ 3·s2 ^ s3, s0 ^ s1 ^ 2·s2 ^ 3·s3, 3·s0 ^ s1 ^ s2 ^ 2·s3]`,
where `·` is GF(2^8) multiplication (`galois_mult`, reduction polynomial
0x11B) and `^` is byte XOR. -/
theorem claim6_mix_columns (st : StateMat) (h4 : st.length = 4)
    (hrow : ∀ row ∈ st, row.length = 4) (c : Nat) (hc : c < 4) :
    getCol (mix_columns st) c =
      [galois_mult 2 (entry st 0 c) ^^^ galois_mult 3 (entry st 1 c) ^^^
         entry st 2 c ^^^ entry st 3 c,
       entry st 0 c ^^^ galois_mult 2 (entry st 1 c) ^^^
         galois_mult 3 (entry st 2 c) ^^^ entry st 3 c,
       entry st 0 c ^^^ entry st 1 c ^^^ galois_mult 2 (entry st 2 c) ^^^
         galois_mult 3 (entry st 3 c),
       galois_mult 3 (entry st 0 c) ^^^ entry st 1 c ^^^ entry st 2 c ^^^
         galois_mult 2 (entry st 3 c)] := by
  interval_cases c <;> rfl

/-- Witness for C6 on a concrete state and column 1. -/
theorem claim6_witness :
    getCol (mix_columns [[0, 1, 2, 3], [4, 5, 6, 7], [8, 9, 10, 11], [12, 13, 14, 15]]) 1 =
      [galois_mult 2 (entry [[0, 1, 2, 3], [4, 5, 6, 7], [8, 9, 10, 11], [12, 13, 14, 15]] 0 1) ^^^
         galois_mult 3 (entry [[0, 1, 2, 3], [4, 5, 6, 7], [8, 9, 10, 11], [12, 13, 14, 15]] 1 1) ^^^
         entry [[0, 1, 2, 3], [4, 5, 6, 7], [8, 9, 10, 11], [12, 13, 14, 15]] 2 1 ^^^
         entry [[0, 1, 2, 3], [4, 5, 6, 7], [8, 9, 10, 11], [12, 13, 14, 15]] 3 1,
       entry [[0, 1, 2, 3], [4, 5, 6, 7], [8, 9, 10, 11], [12, 13, 14, 15]] 0 1 ^^^
         galois_mult 2 (entry [[0, 1, 2, 3], [4, 5, 6, 7], [8, 9, 10, 11], [12, 13, 14, 15]] 1 1) ^^^
         galois_mult 3 (entry [[0, 1, 2, 3], [4, 5, 6, 7], [8, 9, 10, 11], [12, 13, 14, 15]] 2 1) ^^^
         entry [[0, 1, 2, 3], [4, 5, 6, 7], [8, 9, 10, 11], [12, 13, 14, 15]] 3 1,
       entry [[0, 1, 2, 3], [4, 5, 6, 7], [8, 9, 10, 11], [12, 13, 14, 15]] 0 1 ^^^
         entry [[0, 1, 2, 3], [4, 5, 6, 7], [8, 9, 10, 11], [12, 13, 14, 15]] 1 1 ^^^
         galois_mult 2 (entry [[0, 1, 2, 3], [4, 5, 6, 7], [8, 9, 10, 11], [12, 13, 14, 15]] 2 1) ^^^
         galois_mult 3 (entry [[0, 1, 2, 3], [4, 5, 6, 7], [8, 9, 10, 11], [12, 13, 14, 15]] 3 1),
       galois_mult 3 (entry [[0, 1, 2, 3], [4, 5, 6, 7], [8, 9, 10, 11], [12, 13, 14, 15]] 0 1) ^^^
         entry [[0, 1, 2, 3], [4, 5, 6, 7], [8, 9, 10, 11], [12, 13, 14, 15]] 1 1 ^^^
         entry [[0, 1, 2, 3], [4, 5, 6, 7], [8, 9, 10, 11], [12, 13, 14, 15]] 2 1 ^^^
         galois_mult 2 (entry [[0, 1, 2, 3], [4, 5, 6, 7], [8, 9, 10, 11], [12, 13, 14, 15]] 3 1)] :=
  claim6_mix_columns _ (by decide) (by decide) 1 (by decide)

/-- Claim C2: for every valid key of `4*Nk` bytes with `Nk` in {4,6,8}
and `Nr = Nk+6`, key expansion yields exactly `4*(Nr+1)` four-byte
words; the first `Nk` words are the key bytes four at a time, and every
later word `i` equals `word[i-Nk] XOR temp` where `temp` is `word[i-1]`
RotWord/SubWord/Rcon-transformed when `i % Nk = 0`, SubWord-transformed
when `Nk > 6` and `i % Nk = 4`, and unchanged otherwise (the `nextWord`
recurrence). -/
theorem claim2_key_expansion (nk nr : Nat) (hnk : nk = 4 ∨ nk = 6 ∨ nk = 8)
    (hnr : nr = nk + 6) (kb : List Nat) (hlen : kb.length = 4 * nk) :
    ∃ w, key_expansion nk nr kb = some w ∧
      w.length = 4 * (nr + 1) ∧
      (∀ wd ∈ w, wd.length = 4) ∧
      (∀ i, i < nk → w.getD i [] =
        [kb.getD (4 * i) 0, kb.getD (4 * i + 1) 0,
         kb.getD (4 * i + 2) 0, kb.getD (4 * i + 3) 0]) ∧
      (∀ i, nk ≤ i → i < 4 * (nr + 1) → w.getD i [] = nextWord nk w i) := by
  have h1 : 1 ≤ nk := by rcases hnk with rfl | rfl | rfl <;> decide
  have hok : rconOK nk nr = true := by
    subst hnr
    rcases hnk with rfl | rfl | rfl <;> decide
  have hinit : initWords nk kb = some ((List.range nk).map
      (fun i => [kb.getD (4 * i) 0, kb.getD (4 * i + 1) 0,
        kb.getD (4 * i + 2) 0, kb.getD (4 * i + 3) 0])) := by
    unfold initWords
    rw [if_pos (by omega)]
  have hw0len : ((List.range nk).map
      (fun i => [kb.getD (4 * i) 0, kb.getD (4 * i + 1) 0,
        kb.getD (4 * i + 2) 0, kb.getD (4 * i + 3) 0])).length = nk := by
    simp
  have hke : key_expansion nk nr kb = some (expandAux nk (4 * (nr + 1) - nk)
      ((List.range nk).map (fun i => [kb.getD (4 * i) 0, kb.getD (4 * i + 1) 0,
        kb.getD (4 * i + 2) 0, kb.getD (4 * i + 3) 0]))) := by
    unfold key_expansion
    rw [if_neg (by omega), if_pos hok, hinit]
    rfl
  refine ⟨_, hke, ?_, ?_, ?_, ?_⟩
  · rw [expandAux_length, hw0len]
    omega
  · apply expandAux_words
    intro wd hwd
    simp only [List.mem_map, List.mem_range] at hwd
    obtain ⟨i, _, rfl⟩ := hwd
    rfl
  · intro i hi
    rw [expandAux_stable nk _ _ i (by omega)]
    exact getD_map_range _ nk i hi []
  · intro i hge hlt
    exact expandAux_spec nk h1 _ _ (by omega) i (by omega) (by omega)

/-- Witness for C2: AES-128 expansion of the all-zero 16-byte key. -/
theorem claim2_witness :
    ∃ w, key_expansion 4 10 (List.replicate 16 0) = some w ∧
      w.length = 4 * (10 + 1) ∧
      (∀ wd ∈ w, wd.length = 4) ∧
      (∀ i, i < 4 → w.getD i [] =
        [(List.replicate 16 0).getD (4 * i) 0, (List.replicate 16 0).getD (4 * i + 1) 0,
         (List.replicate 16 0).getD (4 * i + 2) 0, (List.replicate 16 0).getD (4 * i + 3) 0]) ∧
      (∀ i, 4 ≤ i → i < 4 * (10 + 1) → w.getD i [] = nextWord 4 w i) :=
  claim2_key_expansion 4 10 (Or.inl rfl) rfl (List.replicate 16 0) (by decide)

/-- The `(round, operation)` projection of the main-round fold: each
processed round number appends its fixed quadruple of labels. -/
lemma foldl_mainRound_ops (rks : List (List Word)) : ∀ (l : List Nat)
    (acc : StateMat × List StepRecord),
    ((l.foldl (mainRound rks) acc).2).map projOp = acc.2.map projOp ++ mainOps l := by
  intro l
  induction l with
  | nil => intro acc; simp [mainOps]
  | cons r rs ih =>
    intro acc
    rw [List.foldl_cons, ih]
    simp [mainRound, mainOps, projOp]

/-- Claim C3: every successful encryption's `rounds` list is, in strict
execution order: one round-0 record labeled "Initial AddRoundKey"; for
each main round `r` in `1..Nr-1` exactly four records SubBytes,
ShiftRows, MixColumns, AddRoundKey carrying round number `r`; and for
round `Nr` exactly three records SubBytes, ShiftRows, "Final
AddRoundKey" with no MixColumns. -/
theorem claim3_trace_structure (key_size : Nat)
    (hks : key_size = 128 ∨ key_size = 192 ∨ key_size = 256)
    (plaintext keyHex : String) (t : EncryptionTrace)
    (h : encrypt key_size plaintext keyHex = some t) :
    opsOf t = (0, "Initial AddRoundKey") ::
      (mainOps (List.range' 1 (key_size / 32 + 6 - 1)) ++
        [(key_size / 32 + 6, "SubBytes"), (key_size / 32 + 6, "ShiftRows"),
         (key_size / 32 + 6, "Final AddRoundKey")]) := by
  unfold encrypt at h
  cases hpt : hex_to_bytes plaintext with
  | none => rw [hpt] at h; exact absurd h (by simp)
  | some pt =>
  cases hk : hex_to_bytes keyHex with
  | none => rw [hpt, hk] at h; exact absurd h (by simp)
  | some kbs =>
  rw [hpt, hk] at h
  simp only [] at h
  cases hm : bytes_to_matrix pt with
  | none => rw [hm] at h; exact absurd h (by simp)
  | some st0 =>
  cases hx : key_expansion (key_size / 32) (key_size / 32 + 6) kbs with
  | none => rw [hm, hx] at h; exact absurd h (by simp)
  | some ek =>
  rw [hm, hx] at h
  simp only [Option.some.injEq] at h
  subst h
  simp only [opsOf, List.map_append, foldl_mainRound_ops]
  simp [projOp, mainOps]

/-- Witness for C3 at the FIPS-197 AES-128 input. -/
theorem claim3_witness :
    opsOf ((encrypt 128 "00112233445566778899aabbccddeeff"
        "000102030405060708090a0b0c0d0e0f").getD
      { initial_state := [], rounds := [], expanded_key := [], final_ciphertext := "" }) =
      (0, "Initial AddRoundKey") ::
        (mainOps (List.range' 1 (128 / 32 + 6 - 1)) ++
          [(128 / 32 + 6, "SubBytes"), (128 / 32 + 6, "ShiftRows"),
           (128 / 32 + 6, "Final AddRoundKey")]) :=
  claim3_trace_structure 128 (Or.inl rfl) "00112233445566778899aabbccddeeff"
    "000102030405060708090a0b0c0d0e0f"
    ((encrypt 128 "00112233445566778899aabbccddeeff"
        "000102030405060708090a0b0c0d0e0f").getD
      { initial_state := [], rounds := [], expanded_key := [], final_ciphertext := "" })
    (by rfl)

/-- A whitespace character is never a hex digit. -/
lemma pySpace_not_hex (c : Char) (h : isPySpace c = true) : isHexDigitChar c = false := by
  simp only [isPySpace, Bool.or_eq_true, beq_iff_eq] at h
  rcases h with ((((h | h) | h) | h) | h) | h <;> subst h <;> decide

/-- If `pyFromhex` succeeds, every input character is a hex digit or
ASCII whitespace, and the hex digits come in complete pairs. -/
lemma pyFromhex_sound : ∀ (n : Nat) (l : List Char), l.length ≤ n →
    ∀ bs, pyFromhex l = some bs →
    (∀ c ∈ l, isHexDigitChar c = true ∨ isPySpace c = true) ∧
      hexDigitCount l % 2 = 0 := by
  intro n
  induction n with
  | zero =>
    intro l hl bs h
    cases l with
    | nil => exact ⟨by simp, by rfl⟩
    | cons c rest => simp at hl
  | succ m ih =>
    intro l hl bs h
    cases l with
    | nil => exact ⟨by simp, by rfl⟩
    | cons c rest =>
      rw [pyFromhex] at h
      by_cases hsp : isPySpace c
      · rw [if_pos hsp] at h
        obtain ⟨hmem, hcnt⟩ := ih rest (by simp at hl; omega) bs h
        refine ⟨?_, ?_⟩
        · intro x hx
          rcases List.mem_cons.mp hx with rfl | hx
          · exact Or.inr hsp
          · exact hmem x hx
        · have hnh : isHexDigitChar c = false := pySpace_not_hex c hsp
          simpa [hexDigitCount, List.filter_cons, hnh] using hcnt
      · rw [if_neg hsp] at h
        split at h
        next => exact absurd h (by simp)
        next hi hv =>
        split at h
        next => exact absurd h (by simp)
        next d rest2 =>
        split at h
        next => exact absurd h (by simp)
        next lo hd =>
        obtain ⟨bs2, hbs2, -⟩ := Option.map_eq_some'.mp h
        obtain ⟨hmem, hcnt⟩ := ih rest2 (by simp at hl; omega) bs2 hbs2
        have hc : isHexDigitChar c = true := by simp [isHexDigitChar, hv]
        have hdx : isHexDigitChar d = true := by simp [isHexDigitChar, hd]
        refine ⟨?_, ?_⟩
        · intro x hx
          rcases List.mem_cons.mp hx with rfl | hx
          · exact Or.inl hc
          rcases List.mem_cons.mp hx with rfl | hx
          · exact Or.inl hdx
          · exact hmem x hx
        · simp only [hexDigitCount, List.filter_cons, hc, hdx, if_pos,
            List.length_cons] at hcnt ⊢
          omega

/-- Counterexample to claim C9: the cleaned string `AB\tCD` has odd
length and contains the non-hex character `\t`, yet `hex_to_bytes`
succeeds instead of failing. -/
theorem claim9_counterexample :
    (pyClean "AB\tCD").length = 5 ∧
    ('\t' ∈ pyClean "AB\tCD" ∧ isHexDigitChar '\t' = false) ∧
    hex_to_bytes "AB\tCD" = some [171, 205] := by
  decide

/-- Amended claim C9: `hex_to_bytes` removes spaces, newlines and `0x`
substrings, then decodes hex digit pairs skipping remaining ASCII
whitespace between pairs; it fails whenever the cleaned string contains
a character that is neither a hex digit nor ASCII whitespace (such as
`g`), or contains an odd number of hex digits. -/
theorem claim9_decode_failure (s : String)
    (h : (∃ c ∈ pyClean s, isHexDigitChar c = false ∧ isPySpace c = false) ∨
      hexDigitCount (pyClean s) % 2 = 1) :
    hex_to_bytes s = none := by
  cases hres : hex_to_bytes s with
  | none => rfl
  | some bs =>
    exfalso
    unfold hex_to_bytes at hres
    have hsound := pyFromhex_sound (pyClean s).length (pyClean s) le_rfl bs hres
    rcases h with ⟨c, hc, h1, h2⟩ | hodd
    · rcases hsound.1 c hc with hx | hx
      · rw [h1] at hx; cases hx
      · rw [h2] at hx; cases hx
    · have := hsound.2
      omega

/-- Witness for C9 (amended) on the input `0g`. -/
theorem claim9_witness :
    ((∃ c ∈ pyClean "0g", isHexDigitChar c = false ∧ isPySpace c = false) ∨
      hexDigitCount (pyClean "0g") % 2 = 1) ∧ hex_to_bytes "0g" = none :=
  ⟨Or.inl (by decide), claim9_decode_failure "0g" (Or.inl (by decide))⟩

end AES
